import Mathlib

/-!
Verification development for the DreamWright repository.

Part 1 embeds the Cloudflare Pages functions of the showcase reader
(the image-serving handler and the two versions of the chapter API
handler) as pure Lean functions over an abstract bucket state.

Part 2 models the generation result cache (KeyDeriver, CacheIndex,
PersistenceLayer, CacheManager).  The cache implementation itself is not
among the available source files — only its README/CLI documentation is —
so those definitions are modelled from the specification text and are
marked as such in their doc comments.
-/

namespace DreamWright

namespace Showcase

/-- JS `String.prototype.endsWith`, modelled as list-suffix on the
characters of the strings. -/
def jsEndsWith (s post : String) : Bool := decide (post.data <:+ s.data)

/-- Content-type selection of `src/apps/showcase/functions/api/image/[[path]].js`
(lines 14-22): default `image/jpeg`, overridden by the `.png`, `.webp`,
`.gif` suffix checks in that order. -/
def contentTypeFor (imagePath : String) : String :=
  if jsEndsWith imagePath ".png" then "image/png"
  else if jsEndsWith imagePath ".webp" then "image/webp"
  else if jsEndsWith imagePath ".gif" then "image/gif"
  else "image/jpeg"

/-- Response of the image-serving handler: status, optional Content-Type
header, body text. -/
structure ImageResp where
  status : Nat
  contentType : Option String
  body : String
deriving DecidableEq

/-- `onRequest` of `src/apps/showcase/functions/api/image/[[path]].js`:
the catch-all path segments are joined with `/`; the object is fetched
from the bucket (modelled as a function from object key to optional
body); a missing object yields 404, otherwise the body is served with
the content type chosen by `contentTypeFor`. -/
def imageOnRequest (bucketGet : String → Option String) (pathParts : List String) :
    ImageResp :=
  let imagePath := String.intercalate "/" pathParts
  match bucketGet imagePath with
  | none => { status := 404, contentType := none, body := "Image not found" }
  | some obj =>
      { status := 200, contentType := some (contentTypeFor imagePath), body := obj }

/-- A panel segment as stored in `webtoon.json`; every field other than
`id` is carried through the chapter handler verbatim, so their payloads
are modelled as opaque strings. -/
structure Segment where
  id : String
  sequence : Nat
  segment_type : String
  description : String
  characters : String
  dialogues : String
  narration : String
  sfx : String
  shot_type : String
  mood : String
  scroll_pacing : String
  height_hint : String
deriving DecidableEq

/-- A scene of a chapter; `segments` is optional because the handler
reads it as `scene.segments || []`. -/
structure Scene where
  id : String
  title : String
  segments : Option (List Segment)
deriving DecidableEq

/-- A chapter of the webtoon metadata; `scenes` is optional because the
handler reads it as `chapter.scenes || []`. -/
structure Chapter where
  title : String
  summary : String
  scenes : Option (List Scene)
deriving DecidableEq

/-- Parsed `webtoon.json`; `chapters` is optional because the handler
reads it with optional chaining (`meta.chapters?.`). -/
structure WebtoonMeta where
  title : String
  chapters : Option (List Chapter)
deriving DecidableEq

/-- The R2 bucket as seen by the chapter handler: `meta` models
`bucket.get(key)` followed by `.json()` (none = object absent), `head`
models `bucket.head(key)` (does an object exist at this key). -/
structure Bucket where
  meta : String → Option WebtoonMeta
  head : String → Bool

/-- Is a character whitespace for JS `parseInt` (ECMA-262 WhiteSpace or
LineTerminator): tab, line feed, vertical tab, form feed, carriage
return, space, no-break space, the Unicode space separators, line and
paragraph separators, and the zero-width no-break space. -/
def jsWhitespace (c : Char) : Bool :=
  [0x09, 0x0a, 0x0b, 0x0c, 0x0d, 0x20, 0xa0, 0x1680, 0x2000, 0x2001,
    0x2002, 0x2003, 0x2004, 0x2005, 0x2006, 0x2007, 0x2008, 0x2009,
    0x200a, 0x2028, 0x2029, 0x202f, 0x205f, 0x3000, 0xfeff].contains c.toNat

/-- The numeric value of a character read as a hexadecimal digit, if it
is one (decimal digits, `a`-`f`, `A`-`F`). -/
def digitVal (c : Char) : Option Nat :=
  if 0x30 ≤ c.toNat ∧ c.toNat ≤ 0x39 then some (c.toNat - 0x30)
  else if 0x61 ≤ c.toNat ∧ c.toNat ≤ 0x66 then some (c.toNat - 0x61 + 10)
  else if 0x41 ≤ c.toNat ∧ c.toNat ≤ 0x46 then some (c.toNat - 0x41 + 10)
  else none

/-- The longest prefix of characters that are valid digits in the given
radix, as their numeric values. -/
def takeDigits (radix : Nat) : List Char → List Nat
  | [] => []
  | c :: r =>
      match digitVal c with
      | some v => if v < radix then v :: takeDigits radix r else []
      | none => []

/-- JS `parseInt` on a string with no radix argument: leading
whitespace trimmed, an optional sign, then — if the remainder starts
with `0x` or `0X` — hexadecimal digits after that prefix (radix 16),
otherwise decimal digits (radix 10); the longest valid digit prefix is
the value, and `none` models `NaN` (no digits at all). -/
def parseIntJs (s : String) : Option Int :=
  let cs := s.data.dropWhile jsWhitespace
  let signAndRest : Int × List Char :=
    match cs with
    | '-' :: r => (-1, r)
    | '+' :: r => (1, r)
    | r => (1, r)
  let radixAndRest : Nat × List Char :=
    match signAndRest.2 with
    | '0' :: 'x' :: r => (16, r)
    | '0' :: 'X' :: r => (16, r)
    | r => (10, r)
  let digits := takeDigits radixAndRest.1 radixAndRest.2
  if digits.isEmpty then none
  else some (signAndRest.1 *
    (digits.foldl (fun n v => n * radixAndRest.1 + v) 0 : Nat))

/-- JS `meta.chapters?.[chapterNum - 1]`: yields a chapter exactly when
the chapter list exists, the parsed number is not NaN, and the 1-based
number indexes into the list (a negative or out-of-range index reads as
`undefined`). -/
def chapterAt (chapters : Option (List Chapter)) (num : Option Int) : Option Chapter :=
  match chapters, num with
  | some chs, some n => if 1 ≤ n then chs.get? (n - 1).toNat else none
  | _, _ => none

/-- The `segmentData` list built by both chapter handlers: segments of
all scenes in order, each paired with its scene. -/
def segmentData (chapter : Chapter) : List (Segment × Scene) :=
  (chapter.scenes.getD []).flatMap
    (fun scene => (scene.segments.getD []).map (fun seg => (seg, scene)))

/-- One element of the `imageChecks` array: segment id, whether an image
object exists, and the object path probed. -/
structure ImageCheck where
  id : String
  present : Bool
  path : String
deriving DecidableEq

/-- The `.jpg` image path probed for a segment. -/
def jpgPath (webtoonId : String) (chapterNum : Int) (segId : String) : String :=
  webtoonId ++ "/assets/chapters/ch" ++ toString chapterNum ++ "/" ++ segId ++ ".jpg"

/-- The `.png` image path probed for a segment (second handler version
only). -/
def pngPath (webtoonId : String) (chapterNum : Int) (segId : String) : String :=
  webtoonId ++ "/assets/chapters/ch" ++ toString chapterNum ++ "/" ++ segId ++ ".png"

/-- Image check of the first chapter handler version: probe the `.jpg`
path only. -/
def imageCheckV1 (head : String → Bool) (webtoonId : String) (chapterNum : Int)
    (seg : Segment) : ImageCheck :=
  let imagePath := jpgPath webtoonId chapterNum seg.id
  { id := seg.id, present := head imagePath, path := imagePath }

/-- Image check of the second chapter handler version: probe the `.png`
path first and use it if the object exists, otherwise fall back to the
`.jpg` path. -/
def imageCheckV2 (head : String → Bool) (webtoonId : String) (chapterNum : Int)
    (seg : Segment) : ImageCheck :=
  let png := pngPath webtoonId chapterNum seg.id
  let jpg := jpgPath webtoonId chapterNum seg.id
  if head png then { id := seg.id, present := true, path := png }
  else { id := seg.id, present := head jpg, path := jpg }

/-- JS `new Map(imageChecks.map(c => [c.id, c])).get(id)`: when ids
repeat, the later entry wins, hence the search over the reversed list. -/
def imageMapGet (checks : List ImageCheck) (id : String) : Option ImageCheck :=
  checks.reverse.find? (fun c => c.id == id)

/-- One element of the `segments` array of the 200 response. -/
structure SegOut where
  id : String
  sequence : Nat
  type : String
  description : String
  characters : String
  dialogues : String
  narration : String
  sfx : String
  shot_type : String
  mood : String
  scroll_pacing : String
  height_hint : String
  scene_id : String
  scene_title : String
  image_url : Option String
  has_image : Bool
deriving DecidableEq

/-- Build one output segment from a `(segment, scene)` pair and the
image-check lookup map, as both handlers do. -/
def buildSegment (checks : List ImageCheck) (p : Segment × Scene) : SegOut :=
  let imgInfo := imageMapGet checks p.1.id
  { id := p.1.id
    sequence := p.1.sequence
    type := p.1.segment_type
    description := p.1.description
    characters := p.1.characters
    dialogues := p.1.dialogues
    narration := p.1.narration
    sfx := p.1.sfx
    shot_type := p.1.shot_type
    mood := p.1.mood
    scroll_pacing := p.1.scroll_pacing
    height_hint := p.1.height_hint
    scene_id := p.2.id
    scene_title := p.2.title
    image_url :=
      match imgInfo with
      | some c => if c.present then some ("/api/image/" ++ c.path) else none
      | none => none
    has_image :=
      match imgInfo with
      | some c => c.present
      | none => false }

/-- The JSON payload of a 200 chapter response. -/
structure ChapterPayload where
  webtoon_id : String
  webtoon_title : String
  chapter_number : Int
  chapter_title : String
  chapter_summary : String
  total_chapters : Nat
  segments : List SegOut
deriving DecidableEq

/-- Body of a chapter handler response: an error object or the chapter
payload. -/
inductive ChapterBody where
  | err (msg : String)
  | payload (p : ChapterPayload)
deriving DecidableEq

/-- Response of the chapter handler: status code and body. -/
structure ChapterResp where
  status : Nat
  body : ChapterBody
deriving DecidableEq

/-- Common skeleton of both chapter handler versions
(`src/unnamed/part_001` and `src/unnamed/part_002`); the two files
differ only in how a segment's image is probed, passed here as
`imgCheck`.  In the 200 branch `chapterNum` is necessarily `some n`
(otherwise `chapterAt` returns none), so reading it with `getD 0` is
the identity there. -/
def chapterOnRequestWith
    (imgCheck : (String → Bool) → String → Int → Segment → ImageCheck)
    (bucket : Bucket) (pathParts : List String) : ChapterResp :=
  if pathParts.length < 2 then { status := 400, body := .err "Invalid path" }
  else
    let webtoonId := pathParts.getD 0 ""
    let chapterNum := parseIntJs (pathParts.getD 1 "")
    match bucket.meta (webtoonId ++ "/webtoon.json") with
    | none => { status := 404, body := .err "Webtoon not found" }
    | some meta =>
        match chapterAt meta.chapters chapterNum with
        | none => { status := 404, body := .err "Chapter not found" }
        | some chapter =>
            let n := chapterNum.getD 0
            let sd := segmentData chapter
            let checks := sd.map (fun p => imgCheck bucket.head webtoonId n p.1)
            { status := 200
              body := .payload
                { webtoon_id := webtoonId
                  webtoon_title := meta.title
                  chapter_number := n
                  chapter_title := chapter.title
                  chapter_summary := chapter.summary
                  total_chapters := (meta.chapters.getD []).length
                  segments := sd.map (buildSegment checks) } }

/-- `onRequest` of the first chapter handler version
(`src/unnamed/part_001`): images probed at the `.jpg` path only. -/
def chapterOnRequestV1 : Bucket → List String → ChapterResp :=
  chapterOnRequestWith imageCheckV1

/-- `onRequest` of the second chapter handler version
(`src/unnamed/part_002`): images probed at the `.png` path first, with
`.jpg` as fallback. -/
def chapterOnRequestV2 : Bucket → List String → ChapterResp :=
  chapterOnRequestWith imageCheckV2

/-- The `.png` paths the second handler version would probe for a given
bucket and request path: empty unless the request parses and resolves
to a chapter, in which case it is one path per segment. -/
def segPngPaths (bucket : Bucket) (pathParts : List String) : List String :=
  if pathParts.length < 2 then []
  else
    let webtoonId := pathParts.getD 0 ""
    let chapterNum := parseIntJs (pathParts.getD 1 "")
    match bucket.meta (webtoonId ++ "/webtoon.json") with
    | none => []
    | some meta =>
        match chapterAt meta.chapters chapterNum with
        | none => []
        | some chapter =>
            (segmentData chapter).map
              (fun p => pngPath webtoonId (chapterNum.getD 0) p.1.id)

/-- A concrete segment used by witnesses. -/
def witSegment : Segment :=
  { id := "ch1_s1_p1"
    sequence := 1
    segment_type := "panel"
    description := "d"
    characters := "c"
    dialogues := "dl"
    narration := "n"
    sfx := "x"
    shot_type := "wide"
    mood := "m"
    scroll_pacing := "slow"
    height_hint := "h" }

/-- A concrete scene used by witnesses. -/
def witScene : Scene :=
  { id := "sc1", title := "Scene", segments := some [witSegment] }

/-- A concrete chapter used by witnesses. -/
def witChapter : Chapter :=
  { title := "Ch1", summary := "S", scenes := some [witScene] }

/-- A concrete one-chapter webtoon metadata value used by witnesses. -/
def witMeta : WebtoonMeta :=
  { title := "T", chapters := some [witChapter] }

/-- A concrete bucket used by witnesses: one webtoon `w` with
`witMeta`, and no image objects at all. -/
def witBucket : Bucket :=
  { meta := fun q => if q = "w/webtoon.json" then some witMeta else none
    head := fun _ => false }

end Showcase

namespace Cache

/-- Modelled from the spec: stand-in for the cryptographic 256-bit hash
of §4.1 (the cache implementation is not among the available sources).
A deterministic rolling hash over a byte sequence, reduced modulo
2^256; only its functionality (same bytes, same digest) matters for the
claims. -/
def modelHash (bytes : List Nat) : Nat :=
  bytes.foldl (fun h b => (h * 131 + b + 1) % (2 ^ 256)) 7

/-- Hex encoding of a digest. -/
def toHex (n : Nat) : String := (Nat.toDigits 16 n).asString

/-- Byte sequence of a string (character code points). -/
def strBytes (s : String) : List Nat := s.data.map Char.toNat

/-- Modelled from the spec (§4.1): a generation request as the
KeyDeriver sees it — request-kind tag, primary prompt text, ordered
reference blobs given as raw bytes, and named parameters given in
call-site order. -/
structure GenRequest where
  kind : String
  primaryText : String
  refBlobs : List (List Nat)
  params : List (String × String)

/-- Order on parameter pairs: by name, ties by value.  On a mapping
(no duplicate names) this coincides with the spec's "parameters sorted
by key". -/
def paramLe (a b : String × String) : Prop :=
  a.1 < b.1 ∨ (a.1 = b.1 ∧ a.2 ≤ b.2)

instance : DecidableRel paramLe := fun a b => by
  unfold paramLe; infer_instance

instance : IsTotal (String × String) paramLe := by
  constructor
  intro a b
  rcases lt_trichotomy a.1 b.1 with h | h | h
  · exact Or.inl (Or.inl h)
  · rcases le_total a.2 b.2 with h2 | h2
    · exact Or.inl (Or.inr ⟨h, h2⟩)
    · exact Or.inr (Or.inr ⟨h.symm, h2⟩)
  · exact Or.inr (Or.inl h)

instance : IsTrans (String × String) paramLe := by
  constructor
  intro a b c hab hbc
  rcases hab with h1 | ⟨e1, l1⟩ <;> rcases hbc with h2 | ⟨e2, l2⟩
  · exact Or.inl (lt_trans h1 h2)
  · exact Or.inl (e2 ▸ h1)
  · exact Or.inl (e1 ▸ h2)
  · exact Or.inr ⟨e1.trans e2, le_trans l1 l2⟩

instance : IsAntisymm (String × String) paramLe := by
  constructor
  intro a b hab hba
  rcases hab with h1 | ⟨e1, l1⟩
  · rcases hba with h2 | ⟨e2, l2⟩
    · exact absurd h2 (lt_asymm h1)
    · exact absurd h1 (e2 ▸ lt_irrefl b.1)
  · rcases hba with h2 | ⟨e2, l2⟩
    · exact absurd h2 (e1 ▸ lt_irrefl a.1)
    · exact Prod.ext e1 (le_antisymm l1 l2)

/-- Modelled from the spec: canonical parameter order — sort the named
parameters before serializing, so call-site argument order cannot
influence the key. -/
def canonParams (ps : List (String × String)) : List (String × String) :=
  ps.insertionSort paramLe

/-- Modelled from the spec (§4.1): the canonical record serialized for
hashing — kind tag, primary text, per-blob content digests (over raw
bytes, not names), and parameters sorted by key, with distinct
separators. -/
def serializeRecord (r : GenRequest) : List Nat :=
  strBytes r.kind ++ [0] ++ strBytes r.primaryText ++ [0] ++
  (r.refBlobs.map (fun b => strBytes (toHex (modelHash b)) ++ [1])).flatten ++ [0] ++
  ((canonParams r.params).map
    (fun kv => strBytes kv.1 ++ [2] ++ strBytes kv.2 ++ [1])).flatten

/-- Modelled from the spec (§4.1): `derive` — hash the canonical record
and hex-encode, prefixed by the kind tag for sharding. -/
def derive (r : GenRequest) : String :=
  r.kind ++ ":" ++ toHex (modelHash (serializeRecord r))

/-- Capacity configuration of the cache (§6): maximum entry count
and/or maximum total bytes; both may be set. -/
structure CacheConfig where
  maxEntries : Option Nat
  maxBytes : Option Nat
deriving DecidableEq

/-- Does an entry count satisfy the configured count bound? -/
def entriesOk (cfg : CacheConfig) (n : Nat) : Bool :=
  match cfg.maxEntries with
  | none => true
  | some m => n ≤ m

/-- Does a byte total satisfy the configured byte bound? -/
def bytesOk (cfg : CacheConfig) (b : Nat) : Bool :=
  match cfg.maxBytes with
  | none => true
  | some m => b ≤ m

/-- Modelled from the spec: does a recency list of (key, size_bytes)
entries fit within the configured capacity? -/
def fits (cfg : CacheConfig) (l : List (String × Nat)) : Bool :=
  entriesOk cfg l.length && bytesOk cfg (l.map (fun e => e.2)).sum

/-- Modelled from the spec (§4.2): evict least-recently-used entries —
the recency list is kept least-recent first — one at a time until the
list fits the capacity; returns the surviving list and the evicted
keys in eviction order. -/
def evictLoop (cfg : CacheConfig) : List (String × Nat) → List (String × Nat) × List String
  | [] => ([], [])
  | x :: xs =>
    if fits cfg (x :: xs) then (x :: xs, [])
    else
      let r := evictLoop cfg xs
      (r.1, x.1 :: r.2)

/-- Modelled from the spec (§4.2): the in-memory LRU index — a recency
list of (key, size_bytes), least recently used first. -/
structure IndexState where
  recency : List (String × Nat)
deriving DecidableEq

/-- Modelled from the spec (§4.2): `lookup` — a hit promotes the entry
to most-recently-used (the back of the list) and returns its size
metadata; a miss leaves the index unchanged. -/
def lookup (s : IndexState) (k : String) : Option Nat × IndexState :=
  match s.recency.find? (fun e => e.1 == k) with
  | none => (none, s)
  | some e => (some e.2, ⟨(s.recency.filter (fun e2 => e2.1 != k)) ++ [e]⟩)

/-- Modelled from the spec (§4.2): `touch` — promote an entry to
most-recently-used. -/
def touch (s : IndexState) (k : String) : IndexState :=
  (lookup s k).2

/-- Modelled from the spec (§4.2): `insert` — replace or add the entry
at the most-recently-used end, then synchronously evict until capacity
is restored; returns the new index and the evicted keys. -/
def insertEntry (cfg : CacheConfig) (s : IndexState) (k : String) (sz : Nat) :
    IndexState × List String :=
  let l := (s.recency.filter (fun e => e.1 != k)) ++ [(k, sz)]
  let r := evictLoop cfg l
  (⟨r.1⟩, r.2)

/-- The configuration of the C3 scenario: capacity of 2 entries. -/
def c3cfg : CacheConfig := ⟨some 2, none⟩

/-- The C3 scenario run: `put(A); put(B); get(A); put(C)` on an index
with capacity 2, ending with the final index and the keys evicted by
the last put. -/
def c3run : IndexState × List String :=
  let s1 := (insertEntry c3cfg ⟨[]⟩ "A" 1).1
  let s2 := (insertEntry c3cfg s1 "B" 1).1
  let s3 := (lookup s2 "A").2
  insertEntry c3cfg s3 "C" 1

/-- Modelled from the spec (§3, §4.2, §4.3): combined state of the
in-memory index and the persistence layer — the recency list (least
recently used first, entries carrying their size) together with the
persisted payloads. -/
structure CacheSystem where
  index : List (String × Nat)
  store : List (String × List Nat)
deriving DecidableEq

/-- Remove a key from an association list. -/
def removeKey (l : List (String × List Nat)) (k : String) : List (String × List Nat) :=
  l.filter (fun e => e.1 != k)

/-- Modelled from the spec: system-level lookup — on a hit the entry is
promoted to most-recently-used and the payload read from the
persistence layer; the store is unchanged. -/
def sysLookup (s : CacheSystem) (k : String) : Option (List Nat) × CacheSystem :=
  match s.index.find? (fun e => e.1 == k) with
  | none => (none, s)
  | some e =>
      ((s.store.find? (fun p => p.1 == k)).map (fun p => p.2),
        ⟨(s.index.filter (fun e2 => e2.1 != k)) ++ [e], s.store⟩)

/-- Modelled from the spec: system-level touch — promote only. -/
def sysTouch (s : CacheSystem) (k : String) : CacheSystem :=
  (sysLookup s k).2

/-- Modelled from the spec (§4.2, §4.4): system-level insert — persist
the payload, replace-or-add the index entry at the most-recently-used
end, then evict until capacity is restored, each eviction removing the
backing payload from the persistence layer. -/
def sysInsert (cfg : CacheConfig) (s : CacheSystem) (k : String) (payload : List Nat) :
    CacheSystem :=
  let store1 := removeKey s.store k ++ [(k, payload)]
  let l := (s.index.filter (fun e => e.1 != k)) ++ [(k, payload.length)]
  let r := evictLoop cfg l
  ⟨r.1, r.2.foldl removeKey store1⟩

/-- Modelled from the spec: system-level eviction sweep — evict until
capacity is restored, removing backing payloads. -/
def sysEvict (cfg : CacheConfig) (s : CacheSystem) : CacheSystem :=
  let r := evictLoop cfg s.index
  ⟨r.1, r.2.foldl removeKey s.store⟩

/-- The invariant of §3: index keys distinct, store keys distinct, index
membership iff a payload exists on the persistence layer, each index
entry's size matches its payload, and the configured capacity is
respected. -/
def sysInv (cfg : CacheConfig) (s : CacheSystem) : Prop :=
  (s.index.map (fun e => e.1)).Nodup ∧
  (s.store.map (fun e => e.1)).Nodup ∧
  (∀ k, (∃ e ∈ s.index, e.1 = k) ↔ (∃ p ∈ s.store, p.1 = k)) ∧
  (∀ e ∈ s.index, ∃ p ∈ s.store, p.1 = e.1 ∧ p.2.length = e.2) ∧
  fits cfg s.index = true

/-- The configuration of the C4 byte scenario: byte bound of 100, no
count bound. -/
def c4cfg : CacheConfig := ⟨none, some 100⟩

/-- The C4 byte scenario run: insert a 60-byte entry A, then a 60-byte
entry B, into an empty cache with a 100-byte capacity. -/
def c4run : CacheSystem :=
  sysInsert c4cfg (sysInsert c4cfg ⟨[], []⟩ "A" (List.replicate 60 7)) "B"
    (List.replicate 60 9)

/-- Sidecar metadata of one persisted entry (§4.3, §6). -/
structure Sidecar where
  size : Nat
  contentKind : String
  createdAt : Nat
  lastAccessed : Nat
deriving DecidableEq

/-- Modelled from the spec (§4.3): the persistence layer's on-disk
state — payload files and sidecar files keyed by cache key, plus a
logical clock standing for the timestamp source (every recorded
timestamp was taken strictly before the current clock value). -/
structure Disk where
  payloads : List (String × List Nat)
  sidecars : List (String × Sidecar)
  clock : Nat
deriving DecidableEq

/-- Disk well-formedness: keys distinct on both sides and all recorded
timestamps strictly before the clock. -/
def diskWF (d : Disk) : Prop :=
  (d.payloads.map (fun e => e.1)).Nodup ∧
  (d.sidecars.map (fun e => e.1)).Nodup ∧
  (∀ e ∈ d.sidecars, e.2.lastAccessed < d.clock)

/-- Modelled from the spec (§4.3): atomic `write` — payload and sidecar
replaced-or-added together, timestamps taken from the clock, clock
advanced. -/
def diskWrite (d : Disk) (k : String) (payload : List Nat) (kind : String) : Disk :=
  { payloads := d.payloads.filter (fun e => e.1 != k) ++ [(k, payload)]
    sidecars := d.sidecars.filter (fun e => e.1 != k) ++
      [(k, ⟨payload.length, kind, d.clock, d.clock⟩)]
    clock := d.clock + 1 }

/-- Modelled from the spec (§4.3): `read` — the payload stored for a
key, if any. -/
def diskRead (d : Disk) (k : String) : Option (List Nat) :=
  (d.payloads.find? (fun e => e.1 == k)).map (fun e => e.2)

/-- Is a sidecar entry valid: a payload exists under the same key with
exactly the recorded size (an orphaned sidecar or a size mismatch is
corruption, pruned on load)? -/
def sidecarValid (d : Disk) (e : String × Sidecar) : Bool :=
  match d.payloads.find? (fun p => p.1 == e.1) with
  | none => false
  | some p => p.2.length == e.2.size

/-- Order for the startup scan: last-accessed descending. -/
def laGe (a b : String × Sidecar) : Prop :=
  b.2.lastAccessed ≤ a.2.lastAccessed

instance : DecidableRel laGe := fun a b => by
  unfold laGe; infer_instance

instance : IsTotal (String × Sidecar) laGe := by
  constructor
  intro a b
  rcases le_total b.2.lastAccessed a.2.lastAccessed with h | h
  · exact Or.inl h
  · exact Or.inr h

instance : IsTrans (String × Sidecar) laGe := by
  constructor
  intro a b c hab hbc
  exact le_trans hbc hab

/-- Modelled from the spec (§4.3): `load_all` — keep only sidecars with
a matching payload of the recorded size (orphans and corrupt entries
pruned, never fatal), ordered by last-accessed descending. -/
def loadAll (d : Disk) : List (String × Sidecar) :=
  (d.sidecars.filter (sidecarValid d)).insertionSort laGe

/-- Does a prospective index of (key, size) entries extended by one more
entry still fit?  Greedy truncation step for the startup rebuild. -/
def truncAcc (cfg : CacheConfig) (kept : List (String × Nat)) :
    List (String × Nat) → List (String × Nat)
  | [] => kept
  | x :: xs =>
      if fits cfg (kept ++ [x]) then truncAcc cfg (kept ++ [x]) xs else kept

/-- Modelled from the spec (§4.3): rebuild the index at startup — the
loaded entries (most recent first) truncated to the configured
capacity.  The index direction is most-recent-first here, matching the
load order. -/
def rebuildIndex (cfg : CacheConfig) (d : Disk) : List (String × Nat) :=
  truncAcc cfg [] ((loadAll d).map (fun e => (e.1, e.2.size)))

/-- Modelled from the spec: a `get` after a simulated restart — the key
is served iff the rebuilt index contains it, reading the payload from
disk. -/
def restartGet (cfg : CacheConfig) (d : Disk) (k : String) : Option (List Nat) :=
  if (rebuildIndex cfg d).any (fun e => e.1 == k) then diskRead d k else none

/-- Per-key state of the CacheManager state machine (§4.4): Absent,
Pending with the ordered list of waiting caller ids, or Present with
the cached value. -/
inductive KeyState where
  | absent
  | pending (waiters : List Nat)
  | present (v : Nat)
deriving DecidableEq

/-- Events of the concurrency model (§5): a caller's `getOrCompute`
arriving for a key (with its overwrite flag), and the wrapped compute
call resolving for a key — successfully or with an error. -/
inductive Ev where
  | arrive (caller : Nat) (k : String) (overwrite : Bool)
  | complete (k : String) (v : Nat)
  | fail (k : String) (e : Nat)
deriving DecidableEq

/-- State of the CacheManager trace machine: per-key status, per-key
count of compute invocations, the log of results delivered to callers
(caller id, key, outcome), and the persisted store. -/
structure MState where
  status : String → KeyState
  invocations : String → Nat
  delivered : List (Nat × String × Except Nat Nat)
  store : List (String × Nat)

/-- Modelled from the spec (§4.4, §5): one interleaving step.
An arrival on Absent (or on Present with overwrite) invokes compute and
moves the key to Pending with that caller as sole waiter; an arrival on
Pending joins the waiters without invoking compute; an arrival on
Present without overwrite is served the stored value immediately.
A completion delivers the value to every waiter, persists the entry and
moves the key to Present; a failure delivers the error to every waiter,
persists nothing and moves the key back to Absent. -/
def step (s : MState) (ev : Ev) : MState :=
  match ev with
  | .arrive c k ow =>
      match s.status k with
      | .absent =>
          { s with
            status := fun k2 => if k2 = k then .pending [c] else s.status k2
            invocations := fun k2 =>
              if k2 = k then s.invocations k2 + 1 else s.invocations k2 }
      | .pending ws =>
          { s with
            status := fun k2 => if k2 = k then .pending (ws ++ [c]) else s.status k2 }
      | .present v =>
          if ow then
            { s with
              status := fun k2 => if k2 = k then .pending [c] else s.status k2
              invocations := fun k2 =>
                if k2 = k then s.invocations k2 + 1 else s.invocations k2 }
          else
            { s with delivered := s.delivered ++ [(c, k, .ok v)] }
  | .complete k v =>
      match s.status k with
      | .pending ws =>
          { s with
            status := fun k2 => if k2 = k then .present v else s.status k2
            delivered := s.delivered ++ ws.map (fun c => (c, k, .ok v))
            store := s.store.filter (fun e => e.1 != k) ++ [(k, v)] }
      | _ => s
  | .fail k e =>
      match s.status k with
      | .pending ws =>
          { s with
            status := fun k2 => if k2 = k then .absent else s.status k2
            delivered := s.delivered ++ ws.map (fun c => (c, k, .error e)) }
      | _ => s

/-- Run a trace of events from a state. -/
def run (s : MState) (t : List Ev) : MState := t.foldl step s

/-- The callers arriving for a key in a trace, in arrival order. -/
def arrivalsTo (k : String) (t : List Ev) : List Nat :=
  t.filterMap (fun ev =>
    match ev with
    | .arrive c k2 _ => if k2 = k then some c else none
    | _ => none)

/-- Is an event an arrival (as opposed to a compute resolution)? -/
def isArrival (ev : Ev) : Bool :=
  match ev with
  | .arrive _ _ _ => true
  | _ => false

/-- Is every event of a trace an arrival? -/
def allArrivals (t : List Ev) : Prop :=
  ∀ ev ∈ t, isArrival ev = true

instance : DecidablePred allArrivals := fun t => List.decidableBAll _ t

/-- The results delivered to callers of a given key, as (caller,
outcome) pairs in delivery order. -/
def deliveredFor (k : String) (s : MState) : List (Nat × Except Nat Nat) :=
  s.delivered.filterMap (fun d => if d.2.1 = k then some (d.1, d.2.2) else none)

/-- The clean initial state: every key Absent, no invocations, nothing
delivered, given persisted store. -/
def initState (store : List (String × Nat)) : MState :=
  { status := fun _ => .absent
    invocations := fun _ => 0
    delivered := []
    store := store }

/-- A concrete machine state used by witnesses: the key `K` is Present
with value 5 and persisted, nothing else going on. -/
def c6state : MState :=
  { status := fun k => if k = "K" then KeyState.present 5 else KeyState.absent
    invocations := fun _ => 0
    delivered := []
    store := [("K", 5)] }

end Cache

namespace Showcase

theorem jsEndsWith_iff {s post : String} :
    jsEndsWith s post = true ↔ post.data <:+ s.data := by
  unfold jsEndsWith
  exact decide_eq_true_iff

theorem jsEndsWith_lastChar {s post : String} (h : jsEndsWith s post = true)
    (hne : post.data ≠ []) : s.data.getLast? = post.data.getLast? := by
  obtain ⟨t, ht⟩ := jsEndsWith_iff.mp h
  rw [← ht, List.getLast?_append_of_ne_nil _ hne]

theorem not_png_and_webp {s : String} (hp : jsEndsWith s ".png" = true)
    (hw : jsEndsWith s ".webp" = true) : False := by
  have h1 := jsEndsWith_lastChar hp (by decide)
  have h2 := jsEndsWith_lastChar hw (by decide)
  rw [h1] at h2
  exact absurd h2 (by decide)

theorem not_png_and_gif {s : String} (hp : jsEndsWith s ".png" = true)
    (hg : jsEndsWith s ".gif" = true) : False := by
  have h1 := jsEndsWith_lastChar hp (by decide)
  have h2 := jsEndsWith_lastChar hg (by decide)
  rw [h1] at h2
  exact absurd h2 (by decide)

theorem not_webp_and_gif {s : String} (hw : jsEndsWith s ".webp" = true)
    (hg : jsEndsWith s ".gif" = true) : False := by
  have h1 := jsEndsWith_lastChar hw (by decide)
  have h2 := jsEndsWith_lastChar hg (by decide)
  rw [h1] at h2
  exact absurd h2 (by decide)

/-- Claim C9: for every image request where the object exists in the
bucket, the image-serving handler sets the Content-Type to `image/png`
iff the joined path ends with ".png", `image/webp` iff it ends with
".webp", `image/gif` iff it ends with ".gif", and `image/jpeg` in every
other case; when the object does not exist it returns status 404. -/
theorem image_handler_content_type (bucketGet : String → Option String)
    (pathParts : List String) :
    (bucketGet (String.intercalate "/" pathParts) = none →
      (imageOnRequest bucketGet pathParts).status = 404) ∧
    (∀ body, bucketGet (String.intercalate "/" pathParts) = some body →
      (imageOnRequest bucketGet pathParts).status = 200 ∧
      ((imageOnRequest bucketGet pathParts).contentType = some "image/png" ↔
        jsEndsWith (String.intercalate "/" pathParts) ".png" = true) ∧
      ((imageOnRequest bucketGet pathParts).contentType = some "image/webp" ↔
        jsEndsWith (String.intercalate "/" pathParts) ".webp" = true) ∧
      ((imageOnRequest bucketGet pathParts).contentType = some "image/gif" ↔
        jsEndsWith (String.intercalate "/" pathParts) ".gif" = true) ∧
      (jsEndsWith (String.intercalate "/" pathParts) ".png" = false →
        jsEndsWith (String.intercalate "/" pathParts) ".webp" = false →
        jsEndsWith (String.intercalate "/" pathParts) ".gif" = false →
        (imageOnRequest bucketGet pathParts).contentType = some "image/jpeg")) := by
  set p := String.intercalate "/" pathParts with hp
  constructor
  · intro h
    simp [imageOnRequest, ← hp, h]
  · intro body h
    have hresp : imageOnRequest bucketGet pathParts =
        { status := 200, contentType := some (contentTypeFor p), body := body } := by
      simp [imageOnRequest, ← hp, h]
    rw [hresp]
    refine ⟨rfl, ?_, ?_, ?_, ?_⟩
    · constructor
      · intro hct
        by_cases hpng : jsEndsWith p ".png" = true
        · exact hpng
        · exfalso
          simp only [contentTypeFor, hpng] at hct
          by_cases hw : jsEndsWith p ".webp" = true <;>
            by_cases hg : jsEndsWith p ".gif" = true <;>
            simp [hw, hg] at hct
      · intro hpng
        simp [contentTypeFor, hpng]
    · constructor
      · intro hct
        by_cases hw : jsEndsWith p ".webp" = true
        · exact hw
        · exfalso
          simp only [contentTypeFor, hw] at hct
          by_cases hpng : jsEndsWith p ".png" = true <;>
            by_cases hg : jsEndsWith p ".gif" = true <;>
            simp [hpng, hg] at hct
      · intro hw
        have hpng : jsEndsWith p ".png" = false := by
          by_cases hpng : jsEndsWith p ".png" = true
          · exact absurd (not_png_and_webp hpng hw) not_false
          · simpa using hpng
        simp [contentTypeFor, hpng, hw]
    · constructor
      · intro hct
        by_cases hg : jsEndsWith p ".gif" = true
        · exact hg
        · exfalso
          simp only [contentTypeFor, hg] at hct
          by_cases hpng : jsEndsWith p ".png" = true <;>
            by_cases hw : jsEndsWith p ".webp" = true <;>
            simp [hpng, hw] at hct
      · intro hg
        have hpng : jsEndsWith p ".png" = false := by
          by_cases hpng : jsEndsWith p ".png" = true
          · exact absurd (not_png_and_gif hpng hg) not_false
          · simpa using hpng
        have hw : jsEndsWith p ".webp" = false := by
          by_cases hw : jsEndsWith p ".webp" = true
          · exact absurd (not_webp_and_gif hw hg) not_false
          · simpa using hw
        simp [contentTypeFor, hpng, hw, hg]
    · intro hpng hw hg
      simp [contentTypeFor, hpng, hw, hg]

/-- Concrete instantiation of the C9 theorem: a bucket holding one
object at `a/b.png` serves it as `image/png` with status 200, and a
request for a missing object is answered 404. -/
theorem image_handler_content_type_witness :
    (imageOnRequest (fun q => if q = "a/b.png" then some "IMG" else none)
      ["a", "b.png"]).status = 200 ∧
    (imageOnRequest (fun q => if q = "a/b.png" then some "IMG" else none)
      ["a", "b.png"]).contentType = some "image/png" ∧
    (imageOnRequest (fun q => if q = "a/b.png" then some "IMG" else none)
      ["a", "missing"]).status = 404 := by
  have h := image_handler_content_type
    (fun q => if q = "a/b.png" then some "IMG" else none) ["a", "b.png"]
  have h2 := h.2 "IMG" (by decide)
  have h404 := (image_handler_content_type
    (fun q => if q = "a/b.png" then some "IMG" else none) ["a", "missing"]).1 (by decide)
  exact ⟨h2.1, (h2.2.1).mpr (by decide), h404⟩

theorem chapterOnRequestWith_short (f : (String → Bool) → String → Int → Segment → ImageCheck)
    (bucket : Bucket) (pathParts : List String) (hlen : pathParts.length < 2) :
    chapterOnRequestWith f bucket pathParts =
      { status := 400, body := .err "Invalid path" } := by
  simp [chapterOnRequestWith, hlen]

theorem chapterOnRequestWith_noMeta (f : (String → Bool) → String → Int → Segment → ImageCheck)
    (bucket : Bucket) (pathParts : List String) (hlen : ¬ pathParts.length < 2)
    (hmeta : bucket.meta (pathParts.getD 0 "" ++ "/webtoon.json") = none) :
    chapterOnRequestWith f bucket pathParts =
      { status := 404, body := .err "Webtoon not found" } := by
  rw [List.getD_eq_getElem?_getD] at hmeta
  simp [chapterOnRequestWith, hlen, hmeta]

theorem chapterOnRequestWith_noChapter (f : (String → Bool) → String → Int → Segment → ImageCheck)
    (bucket : Bucket) (pathParts : List String) (meta : WebtoonMeta)
    (hlen : ¬ pathParts.length < 2)
    (hmeta : bucket.meta (pathParts.getD 0 "" ++ "/webtoon.json") = some meta)
    (hch : chapterAt meta.chapters (parseIntJs (pathParts.getD 1 "")) = none) :
    chapterOnRequestWith f bucket pathParts =
      { status := 404, body := .err "Chapter not found" } := by
  rw [List.getD_eq_getElem?_getD] at hmeta
  rw [List.getD_eq_getElem?_getD] at hch
  simp [chapterOnRequestWith, hlen, hmeta, hch]

theorem chapterOnRequestWith_ok (f : (String → Bool) → String → Int → Segment → ImageCheck)
    (bucket : Bucket) (pathParts : List String) (meta : WebtoonMeta) (chapter : Chapter)
    (hlen : ¬ pathParts.length < 2)
    (hmeta : bucket.meta (pathParts.getD 0 "" ++ "/webtoon.json") = some meta)
    (hch : chapterAt meta.chapters (parseIntJs (pathParts.getD 1 "")) = some chapter) :
    chapterOnRequestWith f bucket pathParts =
      { status := 200
        body := .payload
          { webtoon_id := pathParts.getD 0 ""
            webtoon_title := meta.title
            chapter_number := (parseIntJs (pathParts.getD 1 "")).getD 0
            chapter_title := chapter.title
            chapter_summary := chapter.summary
            total_chapters := (meta.chapters.getD []).length
            segments := (segmentData chapter).map
              (buildSegment ((segmentData chapter).map
                (fun p => f bucket.head (pathParts.getD 0 "")
                  ((parseIntJs (pathParts.getD 1 "")).getD 0) p.1))) } } := by
  rw [List.getD_eq_getElem?_getD] at hmeta
  rw [List.getD_eq_getElem?_getD] at hch
  simp [chapterOnRequestWith, hlen, hmeta, hch, List.getD_eq_getElem?_getD]

/-- Claim C10: the chapter handler (both versions) answers 400 with an
"Invalid path" error body for every path of fewer than 2 parts, for any
bucket state; 404 when the webtoon metadata object is absent or the
1-based chapter number does not resolve to a chapter; 200 with the
chapter payload otherwise; and these are the only outcomes. -/
theorem chapter_handler_outcomes (bucket : Bucket) (pathParts : List String) :
    (pathParts.length < 2 →
      chapterOnRequestV1 bucket pathParts = { status := 400, body := .err "Invalid path" } ∧
      chapterOnRequestV2 bucket pathParts = { status := 400, body := .err "Invalid path" }) ∧
    (¬ pathParts.length < 2 →
      bucket.meta (pathParts.getD 0 "" ++ "/webtoon.json") = none →
      chapterOnRequestV1 bucket pathParts = { status := 404, body := .err "Webtoon not found" } ∧
      chapterOnRequestV2 bucket pathParts = { status := 404, body := .err "Webtoon not found" }) ∧
    (∀ meta, ¬ pathParts.length < 2 →
      bucket.meta (pathParts.getD 0 "" ++ "/webtoon.json") = some meta →
      chapterAt meta.chapters (parseIntJs (pathParts.getD 1 "")) = none →
      chapterOnRequestV1 bucket pathParts = { status := 404, body := .err "Chapter not found" } ∧
      chapterOnRequestV2 bucket pathParts = { status := 404, body := .err "Chapter not found" }) ∧
    (∀ meta chapter, ¬ pathParts.length < 2 →
      bucket.meta (pathParts.getD 0 "" ++ "/webtoon.json") = some meta →
      chapterAt meta.chapters (parseIntJs (pathParts.getD 1 "")) = some chapter →
      (chapterOnRequestV1 bucket pathParts).status = 200 ∧
      (chapterOnRequestV2 bucket pathParts).status = 200 ∧
      (∃ p, (chapterOnRequestV1 bucket pathParts).body = .payload p) ∧
      (∃ p, (chapterOnRequestV2 bucket pathParts).body = .payload p)) ∧
    ((chapterOnRequestV1 bucket pathParts).status = 400 ∨
      (chapterOnRequestV1 bucket pathParts).status = 404 ∨
      (chapterOnRequestV1 bucket pathParts).status = 200) ∧
    ((chapterOnRequestV2 bucket pathParts).status = 400 ∨
      (chapterOnRequestV2 bucket pathParts).status = 404 ∨
      (chapterOnRequestV2 bucket pathParts).status = 200) := by
  have enumerate : ∀ f,
      (chapterOnRequestWith f bucket pathParts).status = 400 ∨
      (chapterOnRequestWith f bucket pathParts).status = 404 ∨
      (chapterOnRequestWith f bucket pathParts).status = 200 := by
    intro f
    by_cases hlen : pathParts.length < 2
    · rw [chapterOnRequestWith_short f bucket pathParts hlen]
      exact Or.inl rfl
    · rcases hmeta : bucket.meta (pathParts.getD 0 "" ++ "/webtoon.json") with _ | meta
      · rw [chapterOnRequestWith_noMeta f bucket pathParts hlen hmeta]
        exact Or.inr (Or.inl rfl)
      · rcases hch : chapterAt meta.chapters (parseIntJs (pathParts.getD 1 "")) with _ | chapter
        · rw [chapterOnRequestWith_noChapter f bucket pathParts meta hlen hmeta hch]
          exact Or.inr (Or.inl rfl)
        · rw [chapterOnRequestWith_ok f bucket pathParts meta chapter hlen hmeta hch]
          exact Or.inr (Or.inr rfl)
  refine ⟨?_, ?_, ?_, ?_, enumerate imageCheckV1, enumerate imageCheckV2⟩
  · intro hlen
    exact ⟨chapterOnRequestWith_short _ bucket pathParts hlen,
      chapterOnRequestWith_short _ bucket pathParts hlen⟩
  · intro hlen hmeta
    exact ⟨chapterOnRequestWith_noMeta _ bucket pathParts hlen hmeta,
      chapterOnRequestWith_noMeta _ bucket pathParts hlen hmeta⟩
  · intro meta hlen hmeta hch
    exact ⟨chapterOnRequestWith_noChapter _ bucket pathParts meta hlen hmeta hch,
      chapterOnRequestWith_noChapter _ bucket pathParts meta hlen hmeta hch⟩
  · intro meta chapter hlen hmeta hch
    rw [show chapterOnRequestV1 bucket pathParts = chapterOnRequestWith imageCheckV1 bucket pathParts from rfl,
      show chapterOnRequestV2 bucket pathParts = chapterOnRequestWith imageCheckV2 bucket pathParts from rfl,
      chapterOnRequestWith_ok imageCheckV1 bucket pathParts meta chapter hlen hmeta hch,
      chapterOnRequestWith_ok imageCheckV2 bucket pathParts meta chapter hlen hmeta hch]
    exact ⟨rfl, rfl, ⟨_, rfl⟩, ⟨_, rfl⟩⟩

/-- Concrete instantiation of the C10 theorem: the short path gives the
400 error, a missing webtoon gives 404, and a resolvable chapter gives
200. -/
theorem chapter_handler_outcomes_witness :
    chapterOnRequestV1 witBucket ["w"] = { status := 400, body := .err "Invalid path" } ∧
    chapterOnRequestV2 witBucket ["missing", "1"] =
      { status := 404, body := .err "Webtoon not found" } ∧
    (chapterOnRequestV1 witBucket ["w", "1"]).status = 200 := by
  refine ⟨((chapter_handler_outcomes witBucket ["w"]).1 (by decide)).1, ?_, ?_⟩
  · exact ((chapter_handler_outcomes witBucket ["missing", "1"]).2.1 (by decide)
      (by simp [witBucket])).2
  · exact ((chapter_handler_outcomes witBucket ["w", "1"]).2.2.2.1 witMeta
      witChapter (by decide) (by simp [witBucket])
      (by decide)).1

theorem segPngPaths_ok (bucket : Bucket) (pathParts : List String)
    (meta : WebtoonMeta) (chapter : Chapter)
    (hlen : ¬ pathParts.length < 2)
    (hmeta : bucket.meta (pathParts.getD 0 "" ++ "/webtoon.json") = some meta)
    (hch : chapterAt meta.chapters (parseIntJs (pathParts.getD 1 "")) = some chapter) :
    segPngPaths bucket pathParts = (segmentData chapter).map
      (fun p => pngPath (pathParts.getD 0 "")
        ((parseIntJs (pathParts.getD 1 "")).getD 0) p.1.id) := by
  rw [List.getD_eq_getElem?_getD] at hmeta
  rw [List.getD_eq_getElem?_getD] at hch
  simp [segPngPaths, hlen, hmeta, hch, List.getD_eq_getElem?_getD]

theorem imageCheckV2_no_png (hd : String → Bool) (webtoonId : String)
    (chapterNum : Int) (seg : Segment)
    (hpng : hd (pngPath webtoonId chapterNum seg.id) = false) :
    imageCheckV2 hd webtoonId chapterNum seg = imageCheckV1 hd webtoonId chapterNum seg := by
  simp [imageCheckV1, imageCheckV2, hpng]

/-- Claim C8: when no segment of the resolved chapter has a `.png`
object in the bucket, the two chapter handler versions produce
identical responses; and when a `.png` object does exist for a
segment, the second version's image check reports the `.png` path,
independently of the bucket's state at the `.jpg` path. -/
theorem chapter_handler_versions_equiv (bucket : Bucket) (pathParts : List String) :
    ((∀ p ∈ segPngPaths bucket pathParts, bucket.head p = false) →
      chapterOnRequestV1 bucket pathParts = chapterOnRequestV2 bucket pathParts) ∧
    (∀ hd webtoonId chapterNum seg, hd (pngPath webtoonId chapterNum seg.id) = true →
      imageCheckV2 hd webtoonId chapterNum seg =
        { id := seg.id, present := true, path := pngPath webtoonId chapterNum seg.id }) := by
  constructor
  · intro h
    rw [show chapterOnRequestV1 = chapterOnRequestWith imageCheckV1 from rfl,
      show chapterOnRequestV2 = chapterOnRequestWith imageCheckV2 from rfl]
    by_cases hlen : pathParts.length < 2
    · rw [chapterOnRequestWith_short imageCheckV1 bucket pathParts hlen,
        chapterOnRequestWith_short imageCheckV2 bucket pathParts hlen]
    · rcases hmeta : bucket.meta (pathParts.getD 0 "" ++ "/webtoon.json") with _ | meta
      · rw [chapterOnRequestWith_noMeta imageCheckV1 bucket pathParts hlen hmeta,
          chapterOnRequestWith_noMeta imageCheckV2 bucket pathParts hlen hmeta]
      · rcases hch : chapterAt meta.chapters (parseIntJs (pathParts.getD 1 "")) with _ | chapter
        · rw [chapterOnRequestWith_noChapter imageCheckV1 bucket pathParts meta hlen hmeta hch,
            chapterOnRequestWith_noChapter imageCheckV2 bucket pathParts meta hlen hmeta hch]
        · rw [chapterOnRequestWith_ok imageCheckV1 bucket pathParts meta chapter hlen hmeta hch,
            chapterOnRequestWith_ok imageCheckV2 bucket pathParts meta chapter hlen hmeta hch]
          have hpaths := segPngPaths_ok bucket pathParts meta chapter hlen hmeta hch
          have hchecks : (segmentData chapter).map
              (fun p => imageCheckV1 bucket.head (pathParts.getD 0 "")
                ((parseIntJs (pathParts.getD 1 "")).getD 0) p.1) =
              (segmentData chapter).map
              (fun p => imageCheckV2 bucket.head (pathParts.getD 0 "")
                ((parseIntJs (pathParts.getD 1 "")).getD 0) p.1) := by
            refine List.map_congr_left ?_
            intro p hp
            refine (imageCheckV2_no_png bucket.head (pathParts.getD 0 "")
              ((parseIntJs (pathParts.getD 1 "")).getD 0) p.1 ?_).symm
            refine h _ ?_
            rw [hpaths]
            exact List.mem_map_of_mem _ hp
          rw [hchecks]
  · intro hd webtoonId chapterNum seg hpng
    simp [imageCheckV2, hpng]

/-- Concrete instantiation of the C8 theorem: on a bucket with no image
objects at all the two handler versions agree on a resolvable chapter
request, and on a bucket where the `.png` object exists the second
version's image check uses the `.png` path. -/
theorem chapter_handler_versions_equiv_witness :
    chapterOnRequestV1 witBucket ["w", "1"] = chapterOnRequestV2 witBucket ["w", "1"] ∧
    imageCheckV2 (fun _ => true) "w" 1 witSegment =
      { id := witSegment.id, present := true, path := pngPath "w" 1 witSegment.id } := by
  have h := chapter_handler_versions_equiv witBucket ["w", "1"]
  exact ⟨h.1 (fun p _ => rfl), h.2 (fun _ => true) "w" 1 witSegment rfl⟩

end Showcase

namespace Cache

theorem canonParams_perm {ps1 ps2 : List (String × String)} (h : ps1.Perm ps2) :
    canonParams ps1 = canonParams ps2 :=
  List.eq_of_perm_of_sorted
    ((List.perm_insertionSort paramLe ps1).trans
      (h.trans (List.perm_insertionSort paramLe ps2).symm))
    (List.sorted_insertionSort paramLe ps1)
    (List.sorted_insertionSort paramLe ps2)

/-- Claim C2 (spec-modelled): `derive` is deterministic — two requests
with the same kind tag, the same primary text, the same ordered
reference blobs and the same named-parameter mapping (the parameter
list given in any call-site order) always derive the identical cache
key; in a pure model this is exactly independence from everything but
the logical request content. -/
theorem derive_deterministic (r1 r2 : GenRequest)
    (hk : r1.kind = r2.kind) (ht : r1.primaryText = r2.primaryText)
    (hb : r1.refBlobs = r2.refBlobs) (hp : r1.params.Perm r2.params) :
    derive r1 = derive r2 := by
  unfold derive serializeRecord
  rw [hk, ht, hb, canonParams_perm hp]

/-- Concrete instantiation of the C2 theorem: the same logical request
with its two parameters given in opposite orders derives the same
key. -/
theorem derive_deterministic_witness :
    derive { kind := "image", primaryText := "a cat", refBlobs := [[1, 2, 3]],
             params := [("model", "img-1"), ("schema", "panel")] } =
    derive { kind := "image", primaryText := "a cat", refBlobs := [[1, 2, 3]],
             params := [("schema", "panel"), ("model", "img-1")] } :=
  derive_deterministic _ _ rfl rfl rfl (by decide)

theorem evictLoop_take_drop (cfg : CacheConfig) (l : List (String × Nat)) :
    ∃ n, (evictLoop cfg l).1 = l.drop n ∧
      (evictLoop cfg l).2 = (l.take n).map (fun e => e.1) := by
  induction l with
  | nil => exact ⟨0, rfl, rfl⟩
  | cons x xs ih =>
      by_cases h : fits cfg (x :: xs) = true
      · exact ⟨0, by simp [evictLoop, h], by simp [evictLoop, h]⟩
      · obtain ⟨n, h1, h2⟩ := ih
        refine ⟨n + 1, ?_, ?_⟩ <;> simp [evictLoop, h, h1, h2]

/-- Claim C3 (spec-modelled): in the scenario `put(A); put(B); get(A);
put(C)` on an index of capacity 2, exactly B — the least recently used
entry — is evicted, leaving the index holding A then C; and in general
eviction removes entries only from the least-recently-used end of the
recency list (a prefix of the LRU-first list), whose order breaks
recency ties by earliest insertion. -/
theorem lru_eviction (cfg : CacheConfig) (l : List (String × Nat)) :
    (c3run.1.recency.map (fun e => e.1) = ["A", "C"] ∧ c3run.2 = ["B"]) ∧
    (∃ n, (evictLoop cfg l).1 = l.drop n ∧
      (evictLoop cfg l).2 = (l.take n).map (fun e => e.1)) :=
  ⟨by decide, evictLoop_take_drop cfg l⟩

theorem fits_nil (cfg : CacheConfig) : fits cfg [] = true := by
  rcases cfg with ⟨me, mb⟩
  cases me <;> cases mb <;> simp [fits, entriesOk, bytesOk]

theorem evictLoop_fits (cfg : CacheConfig) (l : List (String × Nat)) :
    fits cfg (evictLoop cfg l).1 = true := by
  induction l with
  | nil => simp [evictLoop, fits_nil cfg]
  | cons x xs ih =>
      by_cases h : fits cfg (x :: xs) = true
      · simp [evictLoop, h]
      · simpa [evictLoop, h] using ih

theorem fits_perm (cfg : CacheConfig) {l l' : List (String × Nat)} (h : l.Perm l') :
    fits cfg l = fits cfg l' := by
  unfold fits
  rw [h.length_eq, (h.map (fun e => e.2)).sum_eq]

theorem promote_perm {l : List (String × Nat)} {k : String} {e : String × Nat}
    (hnd : (l.map (fun x => x.1)).Nodup) (hf : l.find? (fun x => x.1 == k) = some e) :
    ((l.filter (fun x => x.1 != k)) ++ [e]).Perm l := by
  induction l with
  | nil => simp at hf
  | cons a t ih =>
      simp only [List.map_cons, List.nodup_cons, List.mem_map] at hnd
      by_cases ha : a.1 = k
      · rw [List.find?_cons_of_pos _ (by simp [ha])] at hf
        obtain rfl : a = e := by injection hf
        have htail : t.filter (fun x => x.1 != k) = t := by
          rw [List.filter_eq_self]
          intro x hx
          have hxk : x.1 ≠ k := by
            intro hcontra
            exact hnd.1 ⟨x, hx, hcontra.trans ha.symm⟩
          simp [hxk]
        have hacons : (a :: t).filter (fun x => x.1 != k) = t := by
          rw [List.filter_cons_of_neg (by simp [ha]), htail]
        rw [hacons]
        exact List.perm_append_comm
      · rw [List.find?_cons_of_neg _ (by simp [ha])] at hf
        rw [List.filter_cons_of_pos (by simp [ha]), List.cons_append]
        exact (ih hnd.2 hf).cons a

theorem mem_foldl_removeKey (ks : List String) (st : List (String × List Nat))
    (p : String × List Nat) :
    p ∈ ks.foldl removeKey st ↔ p ∈ st ∧ p.1 ∉ ks := by
  induction ks generalizing st with
  | nil => simp
  | cons k ks ih =>
      rw [List.foldl_cons, ih]
      simp only [removeKey, List.mem_filter, bne_iff_ne, List.mem_cons]
      tauto

theorem foldl_removeKey_sublist (ks : List String) (st : List (String × List Nat)) :
    (ks.foldl removeKey st).Sublist st := by
  induction ks generalizing st with
  | nil => simp
  | cons k ks ih => exact (ih (removeKey st k)).trans (List.filter_sublist st)

theorem evict_pair_inv (cfg : CacheConfig) (l : List (String × Nat))
    (st : List (String × List Nat))
    (h1 : (l.map (fun e => e.1)).Nodup)
    (h2 : (st.map (fun e => e.1)).Nodup)
    (h3 : ∀ k, (∃ e ∈ l, e.1 = k) ↔ (∃ p ∈ st, p.1 = k))
    (h4 : ∀ e ∈ l, ∃ p ∈ st, p.1 = e.1 ∧ p.2.length = e.2) :
    sysInv cfg ⟨(evictLoop cfg l).1, (evictLoop cfg l).2.foldl removeKey st⟩ := by
  obtain ⟨n, hkeep, hev⟩ := evictLoop_take_drop cfg l
  have hnd2 : ((l.take n).map (fun e => e.1) ++ (l.drop n).map (fun e => e.1)).Nodup := by
    rw [← List.map_append, List.take_append_drop]
    exact h1
  have hdisj := (List.nodup_append.mp hnd2).2.2
  refine ⟨?_, ?_, ?_, ?_, ?_⟩
  · rw [hkeep]
    exact ((List.drop_sublist n l).map (fun e => e.1)).nodup h1
  · exact ((foldl_removeKey_sublist _ st).map (fun e => e.1)).nodup h2
  · intro k2
    constructor
    · rintro ⟨e, he, rfl⟩
      rw [hkeep] at he
      obtain ⟨p, hp, hpk⟩ := (h3 e.1).mp ⟨e, (List.drop_sublist n l).subset he, rfl⟩
      refine ⟨p, ?_, hpk⟩
      rw [mem_foldl_removeKey, hev]
      refine ⟨hp, ?_⟩
      rw [hpk]
      intro hmem
      exact hdisj hmem (List.mem_map_of_mem _ he)
    · rintro ⟨p, hp, rfl⟩
      rw [mem_foldl_removeKey, hev] at hp
      obtain ⟨hpst, hpev⟩ := hp
      obtain ⟨e, hel, hek⟩ := (h3 p.1).mpr ⟨p, hpst, rfl⟩
      rw [← List.take_append_drop n l] at hel
      rcases List.mem_append.mp hel with htk | hdr
      · exact absurd (hek ▸ List.mem_map_of_mem (fun e => e.1) htk) hpev
      · exact ⟨e, by rw [hkeep]; exact hdr, hek⟩
  · intro e he
    rw [hkeep] at he
    obtain ⟨p, hp, hpk, hplen⟩ := h4 e ((List.drop_sublist n l).subset he)
    refine ⟨p, ?_, hpk, hplen⟩
    rw [mem_foldl_removeKey, hev]
    refine ⟨hp, ?_⟩
    rw [hpk]
    intro hmem
    exact hdisj hmem (List.mem_map_of_mem _ he)
  · exact evictLoop_fits cfg l

theorem sysInv_lookup (cfg : CacheConfig) (s : CacheSystem) (k : String)
    (h : sysInv cfg s) : sysInv cfg (sysLookup s k).2 := by
  obtain ⟨h1, h2, h3, h4, h5⟩ := h
  rcases hf : s.index.find? (fun e => e.1 == k) with _ | e
  · simp only [sysLookup, hf]
    exact ⟨h1, h2, h3, h4, h5⟩
  · simp only [sysLookup, hf]
    have hperm := promote_perm h1 hf
    refine ⟨?_, h2, ?_, ?_, ?_⟩
    · exact ((hperm.map (fun x => x.1)).nodup_iff).mpr h1
    · intro k2
      rw [← h3 k2]
      constructor
      · rintro ⟨e2, he2, hk⟩
        exact ⟨e2, hperm.subset he2, hk⟩
      · rintro ⟨e2, he2, hk⟩
        exact ⟨e2, hperm.symm.subset he2, hk⟩
    · intro e2 he2
      exact h4 e2 (hperm.subset he2)
    · rw [fits_perm cfg hperm]
      exact h5

theorem sysInv_insert (cfg : CacheConfig) (s : CacheSystem) (k : String)
    (payload : List Nat) (h : sysInv cfg s) :
    sysInv cfg (sysInsert cfg s k payload) := by
  obtain ⟨h1, h2, h3, h4, _⟩ := h
  have hndfilter : ((s.index.filter (fun e => e.1 != k)).map (fun e => e.1)).Nodup :=
    ((List.filter_sublist s.index).map (fun e : String × Nat => e.1)).nodup h1
  have hndstore : ((s.store.filter (fun e => e.1 != k)).map (fun e => e.1)).Nodup :=
    ((List.filter_sublist s.store).map (fun e : String × List Nat => e.1)).nodup h2
  refine evict_pair_inv cfg
    ((s.index.filter (fun e => e.1 != k)) ++ [(k, payload.length)])
    (removeKey s.store k ++ [(k, payload)]) ?_ ?_ ?_ ?_
  · rw [List.map_append]
    refine List.nodup_append.mpr ⟨hndfilter, by simp, ?_⟩
    intro a ha hb
    obtain ⟨e, he, rfl⟩ := List.mem_map.mp ha
    obtain ⟨_, hne⟩ := List.mem_filter.mp he
    rw [bne_iff_ne] at hne
    simp only [List.map_cons, List.map_nil, List.mem_singleton] at hb
    exact hne hb
  · rw [removeKey, List.map_append]
    refine List.nodup_append.mpr ⟨hndstore, by simp, ?_⟩
    intro a ha hb
    obtain ⟨e, he, rfl⟩ := List.mem_map.mp ha
    obtain ⟨_, hne⟩ := List.mem_filter.mp he
    rw [bne_iff_ne] at hne
    simp only [List.map_cons, List.map_nil, List.mem_singleton] at hb
    exact hne hb
  · intro k2
    constructor
    · rintro ⟨e, he, rfl⟩
      rcases List.mem_append.mp he with hf | hsing
      · obtain ⟨hidx, hne⟩ := List.mem_filter.mp hf
        rw [bne_iff_ne] at hne
        obtain ⟨p, hp, hpk⟩ := (h3 e.1).mp ⟨e, hidx, rfl⟩
        refine ⟨p, List.mem_append_left _ ?_, hpk⟩
        rw [removeKey] at *
        exact List.mem_filter.mpr ⟨hp, by rw [bne_iff_ne, hpk]; exact hne⟩
      · rw [List.mem_singleton.mp hsing]
        exact ⟨(k, payload), List.mem_append_right _ (List.mem_singleton.mpr rfl), rfl⟩
    · rintro ⟨p, hp, rfl⟩
      rcases List.mem_append.mp hp with hf | hsing
      · rw [removeKey] at hf
        obtain ⟨hst, hne⟩ := List.mem_filter.mp hf
        rw [bne_iff_ne] at hne
        obtain ⟨e, he, hek⟩ := (h3 p.1).mpr ⟨p, hst, rfl⟩
        refine ⟨e, List.mem_append_left _ ?_, hek⟩
        exact List.mem_filter.mpr ⟨he, by rw [bne_iff_ne, hek]; exact hne⟩
      · rw [List.mem_singleton.mp hsing]
        exact ⟨(k, payload.length), List.mem_append_right _ (List.mem_singleton.mpr rfl), rfl⟩
  · intro e he
    rcases List.mem_append.mp he with hf | hsing
    · obtain ⟨hidx, hne⟩ := List.mem_filter.mp hf
      rw [bne_iff_ne] at hne
      obtain ⟨p, hp, hpk, hplen⟩ := h4 e hidx
      refine ⟨p, List.mem_append_left _ ?_, hpk, hplen⟩
      rw [removeKey]
      exact List.mem_filter.mpr ⟨hp, by rw [bne_iff_ne, hpk]; exact hne⟩
    · rw [List.mem_singleton.mp hsing]
      exact ⟨(k, payload), List.mem_append_right _ (List.mem_singleton.mpr rfl), rfl, rfl⟩

theorem sysInv_evict (cfg : CacheConfig) (s : CacheSystem) (h : sysInv cfg s) :
    sysInv cfg (sysEvict cfg s) := by
  obtain ⟨h1, h2, h3, h4, _⟩ := h
  exact evict_pair_inv cfg s.index s.store h1 h2 h3 h4

/-- Claim C4 (spec-modelled): the CacheIndex/PersistenceLayer invariant
— no key appears twice, a key is in the index iff a valid payload of
the recorded size exists on the persistence layer, and the total size
(entry count and/or total bytes) is within the configured capacity —
is preserved by every operation (lookup, touch, insert with its
synchronous eviction, eviction sweep); and in the byte-bound scenario
with capacity 100, inserting 60-byte A then 60-byte B leaves exactly B
in index and store. -/
theorem cache_invariant (cfg : CacheConfig) (s : CacheSystem) (k : String)
    (payload : List Nat) (h : sysInv cfg s) :
    sysInv cfg (sysLookup s k).2 ∧
    sysInv cfg (sysTouch s k) ∧
    sysInv cfg (sysInsert cfg s k payload) ∧
    sysInv cfg (sysEvict cfg s) ∧
    (c4run.index = [("B", 60)] ∧ c4run.store.map (fun e => e.1) = ["B"]) :=
  ⟨sysInv_lookup cfg s k h, sysInv_lookup cfg s k h, sysInv_insert cfg s k payload h,
    sysInv_evict cfg s h, by decide⟩

/-- Concrete instantiation of the C4 theorem: starting from the empty
cache (which satisfies the invariant), inserting a 60-byte entry keeps
the invariant, and the byte scenario leaves exactly B. -/
theorem cache_invariant_witness :
    sysInv c4cfg (sysInsert c4cfg ⟨[], []⟩ "A" (List.replicate 60 7)) ∧
    c4run.index = [("B", 60)] := by
  have hinv : sysInv c4cfg (⟨[], []⟩ : CacheSystem) := by
    refine ⟨by simp, by simp, ?_, by simp, by decide⟩
    intro k2
    simp
  have h := cache_invariant c4cfg ⟨[], []⟩ "A" (List.replicate 60 7) hinv
  exact ⟨h.2.2.1, h.2.2.2.2.1⟩

theorem find?_append_of_none {α : Type} {p : α → Bool} {l1 l2 : List α}
    (h : ∀ x ∈ l1, p x = false) : (l1 ++ l2).find? p = l2.find? p := by
  induction l1 with
  | nil => simp
  | cons a t ih =>
      simp only [List.cons_append]
      rw [List.find?_cons_of_neg _ (by simp [h a (List.mem_cons_self a t)])]
      exact ih (fun x hx => h x (List.mem_cons_of_mem a hx))

theorem diskRead_write (d : Disk) (K : String) (V : List Nat) (kind : String) :
    diskRead (diskWrite d K V kind) K = some V := by
  unfold diskRead diskWrite
  rw [find?_append_of_none ?side]
  case side =>
    intro x hx
    obtain ⟨_, hne⟩ := List.mem_filter.mp hx
    rw [bne_iff_ne] at hne
    simpa using hne
  simp

theorem loadAll_sorted (d : Disk) : List.Sorted laGe (loadAll d) :=
  List.sorted_insertionSort laGe _

theorem loadAll_valid (d : Disk) :
    ∀ e ∈ loadAll d, ∃ p ∈ d.payloads, p.1 = e.1 ∧ p.2.length = e.2.size := by
  intro e he
  have hmem : e ∈ d.sidecars.filter (sidecarValid d) :=
    (List.perm_insertionSort laGe _).subset he
  obtain ⟨_, hv⟩ := List.mem_filter.mp hmem
  unfold sidecarValid at hv
  rcases hfind : d.payloads.find? (fun p => p.1 == e.1) with _ | p
  · rw [hfind] at hv
    simp at hv
  · rw [hfind] at hv
    have hp := List.find?_some hfind
    have hpm := List.mem_of_find?_eq_some hfind
    exact ⟨p, hpm, by simpa using hp, by simpa using hv⟩

theorem truncAcc_mem (cfg : CacheConfig) (l : List (String × Nat))
    (kept : List (String × Nat)) (x : String × Nat) (hx : x ∈ kept) :
    x ∈ truncAcc cfg kept l := by
  induction l generalizing kept with
  | nil => exact hx
  | cons a t ih =>
      simp only [truncAcc]
      by_cases h : fits cfg (kept ++ [a]) = true
      · rw [if_pos h]
        exact ih _ (List.mem_append_left _ hx)
      · rw [if_neg h]
        exact hx

theorem truncAcc_fits (cfg : CacheConfig) (l : List (String × Nat))
    (kept : List (String × Nat)) (h : fits cfg kept = true) :
    fits cfg (truncAcc cfg kept l) = true := by
  induction l generalizing kept with
  | nil => exact h
  | cons a t ih =>
      simp only [truncAcc]
      by_cases hf : fits cfg (kept ++ [a]) = true
      · rw [if_pos hf]
        exact ih _ hf
      · rw [if_neg hf]
        exact h

theorem loadAll_write_head (d : Disk) (K : String) (V : List Nat) (kind : String)
    (hwf : diskWF d) :
    ∃ rest, loadAll (diskWrite d K V kind) =
      (K, ⟨V.length, kind, d.clock, d.clock⟩) :: rest := by
  set KE : String × Sidecar := (K, ⟨V.length, kind, d.clock, d.clock⟩) with hKE
  have hsc : (diskWrite d K V kind).sidecars =
      d.sidecars.filter (fun e => e.1 != K) ++ [KE] := rfl
  have hKEmem : KE ∈ (diskWrite d K V kind).sidecars := by
    rw [hsc]
    exact List.mem_append_right _ (List.mem_singleton.mpr rfl)
  have hfindp : (diskWrite d K V kind).payloads.find? (fun p => p.1 == KE.1) =
      some (K, V) := by
    show (d.payloads.filter (fun e => e.1 != K) ++ [(K, V)]).find? (fun p => p.1 == KE.1) =
      some (K, V)
    rw [find?_append_of_none ?side]
    case side =>
      intro x hx
      obtain ⟨_, hne⟩ := List.mem_filter.mp hx
      rw [bne_iff_ne] at hne
      simpa [hKE] using hne
    simp [hKE]
  have hvalid : sidecarValid (diskWrite d K V kind) KE = true := by
    unfold sidecarValid
    rw [hfindp]
    simp [hKE]
  have hKEload : KE ∈ loadAll (diskWrite d K V kind) := by
    rw [loadAll]
    exact (List.perm_insertionSort laGe _).symm.subset
      (List.mem_filter.mpr ⟨hKEmem, hvalid⟩)
  have hbound : ∀ e ∈ loadAll (diskWrite d K V kind),
      e = KE ∨ e.2.lastAccessed < d.clock := by
    intro e he
    have hmem : e ∈ (diskWrite d K V kind).sidecars :=
      (List.mem_filter.mp ((List.perm_insertionSort laGe _).subset he)).1
    rw [hsc] at hmem
    rcases List.mem_append.mp hmem with hfil | hsing
    · right
      exact hwf.2.2 e (List.mem_filter.mp hfil).1
    · left
      exact List.mem_singleton.mp hsing
  rcases hload : loadAll (diskWrite d K V kind) with _ | ⟨h0, rest⟩
  · rw [hload] at hKEload
    simp at hKEload
  · have hsorted := loadAll_sorted (diskWrite d K V kind)
    rw [hload] at hsorted hKEload
    by_cases hh : h0 = KE
    · exact ⟨rest, by rw [hh]⟩
    · exfalso
      have hKErest : KE ∈ rest := by
        rcases List.mem_cons.mp hKEload with h | h
        · exact absurd h.symm hh
        · exact h
      have hle : laGe h0 KE := (List.sorted_cons.mp hsorted).1 KE hKErest
      rcases hbound h0 (by rw [hload]; exact List.mem_cons_self _ _) with h | h
      · exact hh h
      · unfold laGe at hle
        simp only [hKE] at hle
        omega

/-- Claim C7 (spec-modelled): after `put(K, V)` and a simulated restart
(index rebuilt from disk via `load_all`), `get(K)` returns V, provided
the configured capacity admits the entry at all; on startup `load_all`
returns entries ordered by last-accessed descending with orphaned or
corrupt entries pruned (never failing), and the rebuilt index is
truncated to the configured capacity. -/
theorem persistence_roundtrip (cfg : CacheConfig) (d : Disk) (K : String)
    (V : List Nat) (kind : String) (hwf : diskWF d)
    (hcap : fits cfg [(K, V.length)] = true) :
    restartGet cfg (diskWrite d K V kind) K = some V ∧
    List.Sorted laGe (loadAll (diskWrite d K V kind)) ∧
    (∀ e ∈ loadAll (diskWrite d K V kind),
      ∃ p ∈ (diskWrite d K V kind).payloads, p.1 = e.1 ∧ p.2.length = e.2.size) ∧
    fits cfg (rebuildIndex cfg (diskWrite d K V kind)) = true := by
  obtain ⟨rest, hload⟩ := loadAll_write_head d K V kind hwf
  refine ⟨?_, loadAll_sorted _, loadAll_valid _, truncAcc_fits cfg _ [] (fits_nil cfg)⟩
  have hmemidx : ((K, V.length) : String × Nat) ∈
      rebuildIndex cfg (diskWrite d K V kind) := by
    unfold rebuildIndex
    rw [hload]
    simp only [List.map_cons]
    have h1 : truncAcc cfg []
        (((K, V.length) : String × Nat) :: rest.map (fun e => (e.1, e.2.size))) =
        truncAcc cfg [(K, V.length)] (rest.map (fun e => (e.1, e.2.size))) := by
      simp [truncAcc, hcap]
    rw [h1]
    exact truncAcc_mem cfg _ _ _ (List.mem_singleton.mpr rfl)
  have hany : (rebuildIndex cfg (diskWrite d K V kind)).any (fun e => e.1 == K) = true :=
    List.any_eq_true.mpr ⟨(K, V.length), hmemidx, by simp⟩
  rw [restartGet, hany]
  simpa using diskRead_write d K V kind

/-- Concrete instantiation of the C7 theorem: writing a 3-byte payload
for key `K` to an empty disk and rebuilding the index with capacity 5
serves the payload back for `K`. -/
theorem persistence_roundtrip_witness :
    restartGet ⟨some 5, none⟩ (diskWrite ⟨[], [], 0⟩ "K" [1, 2, 3] "image") "K" =
      some [1, 2, 3] :=
  (persistence_roundtrip ⟨some 5, none⟩ ⟨[], [], 0⟩ "K" [1, 2, 3] "image"
    ⟨by simp, by simp, by simp⟩ (by decide)).1

theorem run_arrivals_state (t : List Ev) (s : MState) (a : String → List Nat)
    (hall : allArrivals t)
    (hstat : ∀ k, s.status k =
      (if a k = [] then KeyState.absent else KeyState.pending (a k)))
    (hinv : ∀ k, s.invocations k = (if a k = [] then 0 else 1)) :
    (∀ k, (run s t).status k =
      (if a k ++ arrivalsTo k t = [] then KeyState.absent
       else KeyState.pending (a k ++ arrivalsTo k t))) ∧
    (∀ k, (run s t).invocations k =
      (if a k ++ arrivalsTo k t = [] then 0 else 1)) ∧
    (run s t).delivered = s.delivered ∧
    (run s t).store = s.store := by
  induction t generalizing s a with
  | nil =>
      refine ⟨?_, ?_, rfl, rfl⟩ <;> intro k <;>
        simp [run, arrivalsTo, hstat k, hinv k]
  | cons ev t ih =>
      obtain ⟨c, k0, ow, rfl⟩ : ∃ c k0 ow, ev = Ev.arrive c k0 ow := by
        have h := hall ev (List.mem_cons_self _ _)
        cases ev with
        | arrive c k0 ow => exact ⟨c, k0, ow, rfl⟩
        | complete _ _ => simp [isArrival] at h
        | fail _ _ => simp [isArrival] at h
      have hall2 : allArrivals t := fun e he => hall e (List.mem_cons_of_mem _ he)
      have hs0 := hstat k0
      have hstep_stat : ∀ k, (step s (Ev.arrive c k0 ow)).status k =
          (if (if k = k0 then a k ++ [c] else a k) = [] then KeyState.absent
           else KeyState.pending (if k = k0 then a k ++ [c] else a k)) := by
        intro k
        by_cases hk0 : a k0 = []
        · rw [hk0, if_pos rfl] at hs0
          by_cases hk : k = k0
          · subst hk
            simp [step, hs0, hk0]
          · simp [step, hs0, hk, hstat k]
        · rw [if_neg hk0] at hs0
          by_cases hk : k = k0
          · subst hk
            simp [step, hs0, hk0]
          · simp [step, hs0, hk, hstat k]
      have hstep_inv : ∀ k, (step s (Ev.arrive c k0 ow)).invocations k =
          (if (if k = k0 then a k ++ [c] else a k) = [] then 0 else 1) := by
        intro k
        by_cases hk0 : a k0 = []
        · have hs0' := hstat k0
          rw [hk0, if_pos rfl] at hs0'
          by_cases hk : k = k0
          · subst hk
            simp [step, hs0', hinv k, hk0]
          · simp [step, hs0', hk, hinv k]
        · have hs0' := hstat k0
          rw [if_neg hk0] at hs0'
          by_cases hk : k = k0
          · subst hk
            simp [step, hs0', hinv k, hk0]
          · simp [step, hs0', hk, hinv k]
      have hstep_rest : (step s (Ev.arrive c k0 ow)).delivered = s.delivered ∧
          (step s (Ev.arrive c k0 ow)).store = s.store := by
        have hs0' := hstat k0
        by_cases hk0 : a k0 = []
        · rw [hk0, if_pos rfl] at hs0'
          simp [step, hs0']
        · rw [if_neg hk0] at hs0'
          simp [step, hs0']
      obtain ⟨ih1, ih2, ih3, ih4⟩ := ih (step s (Ev.arrive c k0 ow))
        (fun k => if k = k0 then a k ++ [c] else a k) hall2 hstep_stat hstep_inv
      have harr : ∀ k, a k ++ arrivalsTo k (Ev.arrive c k0 ow :: t) =
          (if k = k0 then a k ++ [c] else a k) ++ arrivalsTo k t := by
        intro k
        by_cases hk : k0 = k
        · subst hk
          simp [arrivalsTo]
        · have hk2 : ¬ k = k0 := fun h => hk h.symm
          simp [arrivalsTo, hk, hk2]
      refine ⟨?_, ?_, ?_, ?_⟩
      · intro k
        have : run s (Ev.arrive c k0 ow :: t) = run (step s (Ev.arrive c k0 ow)) t := rfl
        rw [this, ih1 k, harr k]
      · intro k
        have : run s (Ev.arrive c k0 ow :: t) = run (step s (Ev.arrive c k0 ow)) t := rfl
        rw [this, ih2 k, harr k]
      · have : run s (Ev.arrive c k0 ow :: t) = run (step s (Ev.arrive c k0 ow)) t := rfl
        rw [this, ih3, hstep_rest.1]
      · have : run s (Ev.arrive c k0 ow :: t) = run (step s (Ev.arrive c k0 ow)) t := rfl
        rw [this, ih4, hstep_rest.2]

/-- Claim C1 (spec-modelled): single-flight — for any interleaving of
concurrent `getOrCompute` arrivals from an all-Absent state, the
wrapped compute function is invoked exactly once per requested key (and
never for unrequested keys), independently across keys; for a key K
the waiters are exactly its arrivals in order, and when K's single
computation completes every one of its N callers is delivered the same
result value. -/
theorem single_flight (t : List Ev) (K : String) (v : Nat)
    (store0 : List (String × Nat)) (hall : allArrivals t) :
    (∀ k, (run (initState store0) t).invocations k =
      (if arrivalsTo k t = [] then 0 else 1)) ∧
    (arrivalsTo K t ≠ [] →
      (run (initState store0) t).status K = KeyState.pending (arrivalsTo K t)) ∧
    (arrivalsTo K t ≠ [] →
      deliveredFor K (run (initState store0) (t ++ [Ev.complete K v])) =
        (arrivalsTo K t).map (fun c => (c, Except.ok v))) := by
  obtain ⟨h1, h2, h3, h4⟩ := run_arrivals_state t (initState store0) (fun _ => [])
    hall (fun k => rfl) (fun k => rfl)
  refine ⟨?_, ?_, ?_⟩
  · intro k
    have := h2 k
    simpa using this
  · intro hne
    have := h1 K
    simpa [hne] using this
  · intro hne
    have hpend : (run (initState store0) t).status K =
        KeyState.pending (arrivalsTo K t) := by
      have := h1 K
      simpa [hne] using this
    have hrun : run (initState store0) (t ++ [Ev.complete K v]) =
        step (run (initState store0) t) (Ev.complete K v) := by
      simp [run]
    rw [hrun]
    have hdel : (run (initState store0) t).delivered = [] := h3
    simp [step, hpend, deliveredFor, hdel, List.filterMap_append]
    induction arrivalsTo K t with
    | nil => rfl
    | cons x xs ih => simp [List.filterMap_cons, Function.comp, ih]

/-- Concrete instantiation of the C1 theorem: two concurrent callers
for key K and one for key L invoke compute once for K, and after K's
completion both K-callers receive the same value. -/
theorem single_flight_witness :
    (run (initState [])
      [Ev.arrive 1 "K" false, Ev.arrive 2 "K" false, Ev.arrive 3 "L" false]).invocations
        "K" = 1 ∧
    deliveredFor "K" (run (initState [])
      ([Ev.arrive 1 "K" false, Ev.arrive 2 "K" false, Ev.arrive 3 "L" false] ++
        [Ev.complete "K" 42])) = [(1, Except.ok 42), (2, Except.ok 42)] := by
  have h := single_flight
    [Ev.arrive 1 "K" false, Ev.arrive 2 "K" false, Ev.arrive 3 "L" false]
    "K" 42 [] (by decide)
  constructor
  · have h1 := h.1 "K"
    rw [h1]
    rfl
  · have h3 := h.2.2 (by decide)
    rw [h3]
    rfl

/-- Claim C5 (spec-modelled): failure isolation — when the compute for
key K fails after any interleaving of concurrent arrivals, K reverts
to Absent, the persisted store is unchanged (nothing persisted for K),
every waiter of K is delivered the same error, and a subsequent
`getOrCompute` for K invokes compute again (a second invocation). -/
theorem failure_isolation (t : List Ev) (K : String) (e c2 : Nat)
    (store0 : List (String × Nat)) (hall : allArrivals t)
    (hK : arrivalsTo K t ≠ []) :
    (run (initState store0) (t ++ [Ev.fail K e])).status K = KeyState.absent ∧
    (run (initState store0) (t ++ [Ev.fail K e])).store = store0 ∧
    deliveredFor K (run (initState store0) (t ++ [Ev.fail K e])) =
      (arrivalsTo K t).map (fun c => (c, Except.error e)) ∧
    (run (initState store0)
      (t ++ [Ev.fail K e, Ev.arrive c2 K false])).invocations K = 2 := by
  obtain ⟨h1, h2, h3, h4⟩ := run_arrivals_state t (initState store0) (fun _ => [])
    hall (fun k => rfl) (fun k => rfl)
  have hpend : (run (initState store0) t).status K =
      KeyState.pending (arrivalsTo K t) := by
    have := h1 K
    simpa [hK] using this
  have hinv1 : (run (initState store0) t).invocations K = 1 := by
    have := h2 K
    simpa [hK] using this
  have hdel : (run (initState store0) t).delivered = [] := h3
  have hstore : (run (initState store0) t).store = store0 := h4
  have hrun1 : run (initState store0) (t ++ [Ev.fail K e]) =
      step (run (initState store0) t) (Ev.fail K e) := by
    simp [run]
  refine ⟨?_, ?_, ?_, ?_⟩
  · rw [hrun1]
    simp [step, hpend]
  · rw [hrun1]
    simp [step, hpend, hstore]
  · rw [hrun1]
    simp [step, hpend, deliveredFor, hdel, List.filterMap_append]
    induction arrivalsTo K t with
    | nil => rfl
    | cons x xs ih => simp [List.filterMap_cons, Function.comp, ih]
  · have hrun2 : run (initState store0) (t ++ [Ev.fail K e, Ev.arrive c2 K false]) =
        step (step (run (initState store0) t) (Ev.fail K e)) (Ev.arrive c2 K false) := by
      simp [run]
    rw [hrun2]
    have habs : (step (run (initState store0) t) (Ev.fail K e)).status K =
        KeyState.absent := by
      simp [step, hpend]
    have hinv2 : (step (run (initState store0) t) (Ev.fail K e)).invocations K = 1 := by
      simp [step, hpend, hinv1]
    generalize hskip : step (run (initState store0) t) (Ev.fail K e) = s1 at habs hinv2 ⊢
    simp [step, habs, hinv2]

/-- Concrete instantiation of the C5 theorem: after two arrivals for K
and a failure, K is Absent, both callers got the error, nothing was
persisted, and a retry invokes compute a second time. -/
theorem failure_isolation_witness :
    (run (initState []) ([Ev.arrive 1 "K" false, Ev.arrive 2 "K" false] ++
      [Ev.fail "K" 7])).status "K" = KeyState.absent ∧
    deliveredFor "K" (run (initState []) ([Ev.arrive 1 "K" false, Ev.arrive 2 "K" false] ++
      [Ev.fail "K" 7])) = [(1, Except.error 7), (2, Except.error 7)] ∧
    (run (initState []) ([Ev.arrive 1 "K" false, Ev.arrive 2 "K" false] ++
      [Ev.fail "K" 7, Ev.arrive 3 "K" false])).invocations "K" = 2 := by
  have h := failure_isolation [Ev.arrive 1 "K" false, Ev.arrive 2 "K" false]
    "K" 7 3 [] (by decide) (by decide)
  refine ⟨h.1, ?_, h.2.2.2⟩
  rw [h.2.2.1]
  rfl

/-- Claim C6 (spec-modelled): overwrite bypass — with `overwrite =
true`, `getOrCompute` invokes compute even when K is Present, and the
successful completion replaces the stored value for K; with
`overwrite = false` on a Present key, the stored value is delivered
and the state is otherwise untouched (compute is never invoked); and
on an Absent key compute is invoked regardless of the flag. -/
theorem overwrite_bypass (s : MState) (K : String) (c : Nat) (v0 v1 : Nat)
    (h : s.status K = KeyState.present v0) :
    ((step s (Ev.arrive c K true)).invocations K = s.invocations K + 1 ∧
     (step s (Ev.arrive c K true)).status K = KeyState.pending [c] ∧
     (step (step s (Ev.arrive c K true)) (Ev.complete K v1)).status K =
       KeyState.present v1 ∧
     (step (step s (Ev.arrive c K true)) (Ev.complete K v1)).store =
       s.store.filter (fun p => p.1 != K) ++ [(K, v1)]) ∧
    (step s (Ev.arrive c K false) =
      { s with delivered := s.delivered ++ [(c, K, Except.ok v0)] }) ∧
    (∀ s2 : MState, ∀ ow : Bool, s2.status K = KeyState.absent →
      (step s2 (Ev.arrive c K ow)).invocations K = s2.invocations K + 1) := by
  have hmid : (step s (Ev.arrive c K true)).status K = KeyState.pending [c] := by
    simp [step, h]
  refine ⟨⟨?_, hmid, ?_, ?_⟩, ?_, ?_⟩
  · simp [step, h]
  · generalize hg : step s (Ev.arrive c K true) = s1 at hmid ⊢
    simp [step, hmid]
  · have hs : (step s (Ev.arrive c K true)).store = s.store := by
      simp [step, h]
    generalize hg : step s (Ev.arrive c K true) = s1 at hmid hs ⊢
    simp [step, hmid, hs]
  · simp [step, h]
  · intro s2 ow h2
    cases ow <;> simp [step, h2]

/-- Concrete instantiation of the C6 theorem: on a state where K is
Present with value 5, an overwrite arrival invokes compute (count goes
to 1), while a non-overwrite arrival delivers the stored 5 without any
invocation. -/
theorem overwrite_bypass_witness :
    (step c6state (Ev.arrive 1 "K" true)).invocations "K" = 1 ∧
    (step c6state (Ev.arrive 1 "K" false)).delivered = [(1, "K", Except.ok 5)] ∧
    (step c6state (Ev.arrive 1 "K" false)).invocations "K" = 0 := by
  have h := overwrite_bypass c6state "K" 1 5 9 (by simp [c6state])
  refine ⟨?_, ?_, ?_⟩
  · rw [h.1.1]
    rfl
  · rw [h.2.1]
    rfl
  · rw [h.2.1]
    rfl

end Cache

end DreamWright
